import Mathlib

/-!
Shallow embedding of the Noteworthy two-pass build pipeline (`build.py`).

The pipeline compiles a hierarchy of units (cover, preface, outline, per-chapter
covers and pages) twice: pass 1 discovers page counts and accumulates a
`page_map` from unit id to absolute starting page; pass 2 recompiles the
number-displaying units with their resolved offsets.  External effects
(the `typst` compiler, `pdfinfo`, merge/metadata backends) are abstracted by
oracles: a page-count function, per-target compile-success flags, and
backend-availability booleans.
-/

namespace Noteworthy

/-- A page of the document hierarchy: `{id, title}`. -/
structure Page where
  id : String
  title : String
deriving Repr, DecidableEq

/-- A chapter of the document hierarchy: `{title, pages}`. -/
structure Chapter where
  title : String
  pages : List Page
deriving Repr, DecidableEq

/-- The ordered chapter/page structure returned by `extract_hierarchy`. -/
abbrev Hierarchy := List Chapter

/-- Python dict assignment `m[k] = v`: overwrite in place when the key already
exists, otherwise append at the end (insertion order preserved). -/
def dictInsert (m : List (String × Int)) (k : String) (v : Int) : List (String × Int) :=
  if m.any (fun p => p.1 = k) then m.map (fun p => if p.1 = k then (k, v) else p)
  else m ++ [(k, v)]

/-- Python dict lookup `m[k]`, `none` when the key is absent
(where `build.py` would raise `KeyError`). -/
def dictGet (m : List (String × Int)) (k : String) : Option Int :=
  (m.find? (fun p => p.1 = k)).map (·.2)

/-- Python membership test `k in m` for the page map. -/
def containsKey (m : List (String × Int)) (k : String) : Bool :=
  m.any (fun p => p.1 = k)

/-- The compile targets one chapter contributes, in emission order: its cover
`chapter-<id>` — where `<id>` is the first two characters of the chapter's
first page id (`first_page["id"][:2]`, build.py lines 499-500) — followed by
each page id.  `none` when the chapter has no pages, where `build.py` raises
`IndexError` at `chapter["pages"][0]`. -/
def chapterTargets (ch : Chapter) : Option (List String) :=
  match ch.pages with
  | [] => none
  | p :: _ => some (("chapter-" ++ p.id.take 2) :: ch.pages.map (·.id))

/-- Concatenation of every chapter's targets in hierarchy order. -/
def chaptersTargets : Hierarchy → Option (List String)
  | [] => some []
  | ch :: rest => do
    let a ← chapterTargets ch
    let b ← chaptersTargets rest
    return a ++ b

/-- The pass-1 emission order of `main` (build.py lines 464-524): cover,
preface, outline, then for each chapter its cover followed by its pages. -/
def emissionTargets (h : Hierarchy) : Option (List String) :=
  (chaptersTargets h).map (fun l => "cover" :: "preface" :: "outline" :: l)

/-- The pass-1 loop body iterated over targets (build.py lines 464-524): for
each target, record `page_map[target] = current_page`, then advance
`current_page` by the page count of the produced file.  `counts t` abstracts
`get_pdf_page_count` applied to target `t`'s output file. -/
def pass1Loop (counts : String → Int) :
    List (String × Int) → Int → List String → List (String × Int) × Int
  | pm, cur, [] => (pm, cur)
  | pm, cur, t :: ts => pass1Loop counts (dictInsert pm t cur) (cur + counts t) ts

/-- Pass 1 of `main`: starting from `page_map = {}` and `current_page = 1`,
run the loop over the emission order.  `none` when some chapter has no pages. -/
def pass1 (h : Hierarchy) (counts : String → Int) : Option (List (String × Int) × Int) :=
  (emissionTargets h).map (fun ts => pass1Loop counts [] 1 ts)

/-- The total page count reported after pass 1:
`print(f"✓ Total pages: {current_page - 1}")` (build.py line 531). -/
def totalPages (h : Hierarchy) (counts : String → Int) : Option Int :=
  (pass1 h counts).map (fun r => r.2 - 1)

/-- The worked-example hierarchy of the specification: chapters "Intro"
(pages 01a, 01b) and "Core" (page 02a). -/
def exampleHierarchy : Hierarchy :=
  [⟨"Intro", [⟨"01a", "01a"⟩, ⟨"01b", "01b"⟩]⟩,
   ⟨"Core", [⟨"02a", "02a"⟩]⟩]

/-- The worked-example page counts reported by the compiler in pass 1. -/
def exampleCounts : String → Int := fun t =>
  if t = "cover" then 1 else if t = "preface" then 2
  else if t = "outline" then 1 else if t = "chapter-01" then 1
  else if t = "01a" then 3 else if t = "01b" then 2
  else if t = "chapter-02" then 1 else if t = "02a" then 4 else 0

/-- C1: on the worked example, the pass-1 loop produces exactly the PageMap
{cover:1, preface:2, outline:4, chapter-01:5, 01a:6, 01b:9, chapter-02:11,
02a:12} and reports total pages = 15. -/
theorem pass1_worked_example :
    pass1 exampleHierarchy exampleCounts =
      some ([("cover", 1), ("preface", 2), ("outline", 4), ("chapter-01", 5),
             ("01a", 6), ("01b", 9), ("chapter-02", 11), ("02a", 12)], 16) ∧
    totalPages exampleHierarchy exampleCounts = some 15 := by
  exact ⟨rfl, rfl⟩

/-- The sequence of `(target, starting page)` pairs the pass-1 loop records,
in emission order, when the running counter begins at `cur`: entry `t` is
recorded at the counter's current value, which then advances by `counts t`. -/
def pass1Starts (counts : String → Int) : Int → List String → List (String × Int)
  | _, [] => []
  | cur, t :: ts => (t, cur) :: pass1Starts counts (cur + counts t) ts

theorem pass1Loop_eq_starts (counts : String → Int) (ts : List String) :
    ∀ pm cur, pass1Loop counts pm cur ts =
      ((pass1Starts counts cur ts).foldl (fun m p => dictInsert m p.1 p.2) pm,
       cur + (ts.map counts).sum) := by
  induction ts with
  | nil => intro pm cur; simp [pass1Loop, pass1Starts]
  | cons t ts ih =>
      intro pm cur
      simp only [pass1Loop, pass1Starts, List.foldl_cons, List.map_cons, List.sum_cons, ih]
      ring_nf

theorem pass1Starts_head (counts : String → Int) (cur : Int) (t : String) (ts : List String) :
    (pass1Starts counts cur (t :: ts)).head? = some (t, cur) := rfl

theorem pass1Starts_chain (counts : String → Int) :
    ∀ cur ts, List.Chain' (fun a b => b.2 = a.2 + counts a.1)
      (pass1Starts counts cur ts) := by
  intro cur ts
  induction ts generalizing cur with
  | nil => exact List.chain'_nil
  | cons t ts ih =>
      cases ts with
      | nil => exact List.chain'_singleton _
      | cons t' ts' =>
          exact List.Chain'.cons rfl (ih (cur + counts t))

/-- C2: the starting pages the pass-1 loop records satisfy, for consecutive
units in emission order, `start(next) = start(current) + pageCount(current)`;
the first unit (the cover) starts at page 1; the PageMap is exactly the
dictionary built from these recorded starts; and when every page count is
positive the recorded starting pages strictly increase. -/
theorem pass1_contiguity (h : Hierarchy) (counts : String → Int) (ts : List String)
    (hts : emissionTargets h = some ts) :
    pass1 h counts =
      some ((pass1Starts counts 1 ts).foldl (fun m p => dictInsert m p.1 p.2) [],
            1 + (ts.map counts).sum) ∧
    (pass1Starts counts 1 ts).head? = some ("cover", 1) ∧
    List.Chain' (fun a b => b.2 = a.2 + counts a.1) (pass1Starts counts 1 ts) ∧
    ((∀ t, 0 < counts t) →
      List.Pairwise (fun a b => a.2 < b.2) (pass1Starts counts 1 ts)) := by
  refine ⟨?_, ?_, pass1Starts_chain counts 1 ts, ?_⟩
  · simp [pass1, hts, pass1Loop_eq_starts]
  · obtain ⟨l, -, rfl⟩ := Option.map_eq_some'.mp hts
    exact pass1Starts_head counts 1 _ _
  · intro hpos
    have hmono : List.Chain' (fun a b : String × Int => a.2 < b.2)
        (pass1Starts counts 1 ts) :=
      (pass1Starts_chain counts 1 ts).imp
        (fun a b hab => by rw [hab]; exact lt_add_of_pos_right _ (hpos a.1))
    haveI : IsTrans (String × Int) (fun a b : String × Int => a.2 < b.2) :=
      ⟨fun a b c hab hbc => lt_trans hab hbc⟩
    exact List.chain'_iff_pairwise.mp hmono

/-- C2 witness at the worked example. -/
theorem pass1_contiguity_witness :
    List.Chain' (fun a b => b.2 = a.2 + exampleCounts a.1)
      (pass1Starts exampleCounts 1
        ["cover", "preface", "outline", "chapter-01", "01a", "01b",
         "chapter-02", "02a"]) :=
  (pass1_contiguity exampleHierarchy exampleCounts _ rfl).2.2.1

theorem containsKey_dictInsert (m : List (String × Int)) (k : String) (v : Int)
    (k' : String) :
    containsKey (dictInsert m k v) k' = (containsKey m k' || decide (k = k')) := by
  unfold containsKey dictInsert
  split
  case isTrue hmem =>
    rw [List.any_map]
    have hfun : ((fun p : String × Int => decide (p.1 = k')) ∘
        (fun p : String × Int => if p.1 = k then (k, v) else p)) =
        fun p : String × Int => decide (p.1 = k') := by
      funext p
      by_cases hp : p.1 = k
      · simp [hp]
      · simp [hp]
    rw [hfun]
    by_cases hk : k = k'
    · subst hk
      simp [hmem]
    · simp [hk]
  case isFalse hmem =>
    simp [List.any_append]

theorem containsKey_pass1Loop (counts : String → Int) (ts : List String) :
    ∀ pm cur k, containsKey (pass1Loop counts pm cur ts).1 k = true ↔
      (containsKey pm k = true ∨ k ∈ ts) := by
  induction ts with
  | nil => intro pm cur k; simp [pass1Loop]
  | cons t ts ih =>
      intro pm cur k
      rw [pass1Loop, ih]
      simp [containsKey_dictInsert, List.mem_cons]
      tauto

theorem mem_chaptersTargets (h : Hierarchy) :
    ∀ l, chaptersTargets h = some l →
      ∀ k, k ∈ l ↔
        ((∃ ch ∈ h, ∃ p, ch.pages.head? = some p ∧ k = "chapter-" ++ p.id.take 2) ∨
         (∃ ch ∈ h, ∃ p ∈ ch.pages, k = p.id)) := by
  induction h with
  | nil =>
      intro l hl k
      simp [chaptersTargets] at hl
      subst hl
      simp
  | cons ch rest ih =>
      intro l hl k
      cases hct : chapterTargets ch with
      | none => rw [chaptersTargets] at hl; rw [hct] at hl; simp at hl
      | some a =>
          cases hrt : chaptersTargets rest with
          | none => rw [chaptersTargets] at hl; rw [hct, hrt] at hl; simp at hl
          | some b =>
              rw [chaptersTargets] at hl
              rw [hct, hrt] at hl
              simp at hl
              subst hl
              cases hp : ch.pages with
              | nil => rw [chapterTargets] at hct; rw [hp] at hct; simp at hct
              | cons p ps =>
                  rw [chapterTargets] at hct
                  rw [hp] at hct
                  simp at hct
                  subst hct
                  rw [List.cons_append, List.mem_cons, List.mem_append]
                  constructor
                  · rintro (h1 | h2 | h3)
                    · exact Or.inl ⟨ch, List.mem_cons_self _ _, p,
                        by rw [hp]; rfl, h1⟩
                    · rcases List.mem_cons.mp h2 with h2' | h2'
                      · exact Or.inr ⟨ch, List.mem_cons_self _ _, p,
                          by rw [hp]; exact List.mem_cons_self _ _, h2'⟩
                      · obtain ⟨q, hq, hqk⟩ := List.mem_map.mp h2'
                        exact Or.inr ⟨ch, List.mem_cons_self _ _, q,
                          by rw [hp]; exact List.mem_cons_of_mem _ hq, hqk.symm⟩
                    · rcases (ih b hrt k).mp h3 with h4 | h4
                      · obtain ⟨c, hc, q, hq1, hq2⟩ := h4
                        exact Or.inl ⟨c, List.mem_cons_of_mem _ hc, q, hq1, hq2⟩
                      · obtain ⟨c, hc, q, hq1, hq2⟩ := h4
                        exact Or.inr ⟨c, List.mem_cons_of_mem _ hc, q, hq1, hq2⟩
                  · rintro (⟨c, hc, q, hq1, hq2⟩ | ⟨c, hc, q, hq1, hq2⟩)
                    · rcases List.mem_cons.mp hc with rfl | hc'
                      · rw [hp] at hq1
                        have hqp : p = q := by simpa using hq1
                        subst hqp
                        exact Or.inl hq2
                      · exact Or.inr (Or.inr ((ih b hrt k).mpr
                          (Or.inl ⟨c, hc', q, hq1, hq2⟩)))
                    · rcases List.mem_cons.mp hc with rfl | hc'
                      · rw [hp] at hq1
                        rcases List.mem_cons.mp hq1 with rfl | hq'
                        · exact Or.inr (Or.inl (List.mem_cons.mpr (Or.inl hq2)))
                        · exact Or.inr (Or.inl (List.mem_cons.mpr (Or.inr
                            (List.mem_map.mpr ⟨q, hq', hq2.symm⟩))))
                      · exact Or.inr (Or.inr ((ih b hrt k).mpr
                          (Or.inr ⟨c, hc', q, hq1, hq2⟩)))

theorem chaptersTargets_isSome (h : Hierarchy) (hne : ∀ ch ∈ h, ch.pages ≠ []) :
    ∃ l, chaptersTargets h = some l := by
  induction h with
  | nil => exact ⟨[], rfl⟩
  | cons ch rest ih =>
      obtain ⟨l, hl⟩ := ih (fun c hc => hne c (List.mem_cons_of_mem _ hc))
      cases hp : ch.pages with
      | nil => exact absurd hp (hne ch (List.mem_cons_self _ _))
      | cons p ps =>
          exact ⟨("chapter-" ++ p.id.take 2) :: (p :: ps).map (·.id) ++ l,
            by rw [chaptersTargets]; simp [chapterTargets, hp, hl]⟩

/-- C3: for a hierarchy in which every chapter has at least one page, pass 1
succeeds and the key set of the resulting PageMap is exactly
`{cover, preface, outline}` together with `chapter-<id>` for each chapter
(`<id>` = first two characters of the chapter's first page id) and the id of
every page of every chapter. -/
theorem pass1_keys (h : Hierarchy) (counts : String → Int)
    (hne : ∀ ch ∈ h, ch.pages ≠ []) :
    ∃ pm cur, pass1 h counts = some (pm, cur) ∧
      ∀ k, containsKey pm k = true ↔
        (k = "cover" ∨ k = "preface" ∨ k = "outline" ∨
         (∃ ch ∈ h, ∃ p, ch.pages.head? = some p ∧ k = "chapter-" ++ p.id.take 2) ∨
         (∃ ch ∈ h, ∃ p ∈ ch.pages, k = p.id)) := by
  obtain ⟨l, hl⟩ := chaptersTargets_isSome h hne
  refine ⟨(pass1Loop counts [] 1 ("cover" :: "preface" :: "outline" :: l)).1,
          (pass1Loop counts [] 1 ("cover" :: "preface" :: "outline" :: l)).2, ?_, ?_⟩
  · simp [pass1, emissionTargets, hl]
  · intro k
    rw [containsKey_pass1Loop]
    simp [containsKey, List.mem_cons, mem_chaptersTargets h l hl k]

/-- C3 witness at the worked example. -/
theorem pass1_keys_witness :
    ∃ pm cur, pass1 exampleHierarchy exampleCounts = some (pm, cur) ∧
      ∀ k, containsKey pm k = true ↔
        (k = "cover" ∨ k = "preface" ∨ k = "outline" ∨
         (∃ ch ∈ exampleHierarchy, ∃ p, ch.pages.head? = some p ∧
            k = "chapter-" ++ p.id.take 2) ∨
         (∃ ch ∈ exampleHierarchy, ∃ p ∈ ch.pages, k = p.id)) :=
  pass1_keys exampleHierarchy exampleCounts (by decide)
/-- One invocation of `compile_target` (build.py lines 91-114): the target id,
the optional `--input page-offset=<int>` argument and the optional
`--input page-map=<json>` argument. -/
structure CompileCall where
  target : String
  page_offset : Option Int
  pageMapArg : Option (List (String × Int))
deriving Repr, DecidableEq

/-- The pass-2 page loop of one chapter (build.py lines 563-570): each page is
recompiled with `page_offset = page_map[page_id]` and no page map. -/
def pass2PageCalls (pm : List (String × Int)) : List Page → Option (List CompileCall)
  | [] => some []
  | pg :: rest => do
    let off ← dictGet pm pg.id
    let calls ← pass2PageCalls pm rest
    return CompileCall.mk pg.id (some off) none :: calls

/-- The pass-2 invocations one chapter contributes (build.py lines 550-570):
the chapter cover with `page_offset = page_map["chapter-<id>"]`, then each
page with its own offset; no page map is passed.  `none` where build.py would
raise (empty chapter, missing key). -/
def pass2ChapterCalls (pm : List (String × Int)) (ch : Chapter) :
    Option (List CompileCall) := do
  let p ← ch.pages.head?
  let coff ← dictGet pm ("chapter-" ++ p.id.take 2)
  let pageCalls ← pass2PageCalls pm ch.pages
  return CompileCall.mk ("chapter-" ++ p.id.take 2) (some coff) none :: pageCalls

/-- The pass-2 chapter loop (build.py lines 550-570), in hierarchy order. -/
def pass2ChaptersCalls (pm : List (String × Int)) : Hierarchy → Option (List CompileCall)
  | [] => some []
  | ch :: rest => do
    let a ← pass2ChapterCalls pm ch
    let b ← pass2ChaptersCalls pm rest
    return a ++ b

/-- Pass 2 of `main` (build.py lines 537-570): cover and preface are skipped
(`pbar.update(2)` only); the outline is recompiled with
`page_offset = page_map["outline"]` together with the entire page map; then
every chapter cover and page is recompiled with its resolved offset.  The
page map is only read here, never written. -/
def pass2Calls (h : Hierarchy) (pm : List (String × Int)) :
    Option (List CompileCall) := do
  let ooff ← dictGet pm "outline"
  let chCalls ← pass2ChaptersCalls pm h
  return CompileCall.mk "outline" (some ooff) (some pm) :: chCalls

theorem dictGet_isSome (m : List (String × Int)) (k : String)
    (hk : containsKey m k = true) : ∃ v, dictGet m k = some v := by
  unfold containsKey at hk
  unfold dictGet
  rw [List.any_eq_true] at hk
  obtain ⟨p, hp, hpk⟩ := hk
  have hs : (m.find? (fun p => p.1 = k)).isSome := List.find?_isSome.mpr ⟨p, hp, hpk⟩
  obtain ⟨q, hq⟩ := Option.isSome_iff_exists.mp hs
  exact ⟨q.2, by rw [hq]; rfl⟩

theorem pass2PageCalls_spec (pm : List (String × Int)) :
    ∀ pages : List Page, (∀ pg ∈ pages, containsKey pm pg.id = true) →
      ∃ calls, pass2PageCalls pm pages = some calls ∧
        calls.map (·.target) = pages.map (·.id) ∧
        ∀ c ∈ calls, c.page_offset = dictGet pm c.target ∧ c.pageMapArg = none := by
  intro pages
  induction pages with
  | nil => intro _; exact ⟨[], rfl, rfl, by simp⟩
  | cons pg rest ih =>
      intro hk
      obtain ⟨v, hv⟩ := dictGet_isSome pm pg.id (hk pg (List.mem_cons_self _ _))
      obtain ⟨calls, hc, hmap, hprop⟩ :=
        ih (fun q hq => hk q (List.mem_cons_of_mem _ hq))
      refine ⟨CompileCall.mk pg.id (some v) none :: calls, ?_, ?_, ?_⟩
      · rw [pass2PageCalls]
        rw [hv, hc]
        rfl
      · simp [hmap]
      · rintro c hc'
        rcases List.mem_cons.mp hc' with rfl | hc''
        · exact ⟨hv.symm, rfl⟩
        · exact hprop c hc''

theorem pass2ChapterCalls_spec (pm : List (String × Int)) (ch : Chapter)
    (a : List String) (hct : chapterTargets ch = some a)
    (hkeys : ∀ k ∈ a, containsKey pm k = true) :
    ∃ calls, pass2ChapterCalls pm ch = some calls ∧
      calls.map (·.target) = a ∧
      ∀ c ∈ calls, c.page_offset = dictGet pm c.target ∧ c.pageMapArg = none := by
  cases hp : ch.pages with
  | nil => rw [chapterTargets, hp] at hct; simp at hct
  | cons p ps =>
      rw [chapterTargets, hp] at hct
      simp only [Option.some.injEq] at hct
      subst hct
      obtain ⟨v, hv⟩ := dictGet_isSome pm ("chapter-" ++ p.id.take 2)
        (hkeys _ (List.mem_cons_self _ _))
      obtain ⟨pcalls, hpc, hpmap, hpprop⟩ := pass2PageCalls_spec pm ch.pages
        (fun pg hpg => hkeys pg.id (by
          rw [hp] at hpg
          exact List.mem_cons_of_mem _ (List.mem_map.mpr ⟨pg, hpg, rfl⟩)))
      refine ⟨CompileCall.mk ("chapter-" ++ p.id.take 2) (some v) none :: pcalls,
        ?_, ?_, ?_⟩
      · rw [hp] at hpc
        simp [pass2ChapterCalls, hp, hv, hpc]
      · rw [List.map_cons, hpmap, hp]
      · rintro c hc'
        rcases List.mem_cons.mp hc' with rfl | hc''
        · exact ⟨hv.symm, rfl⟩
        · exact hpprop c hc''

theorem pass2ChaptersCalls_spec (pm : List (String × Int)) :
    ∀ (h : Hierarchy) (l : List String), chaptersTargets h = some l →
      (∀ k ∈ l, containsKey pm k = true) →
      ∃ calls, pass2ChaptersCalls pm h = some calls ∧
        calls.map (·.target) = l ∧
        ∀ c ∈ calls, c.page_offset = dictGet pm c.target ∧ c.pageMapArg = none := by
  intro h
  induction h with
  | nil =>
      intro l hl _
      simp [chaptersTargets] at hl
      subst hl
      exact ⟨[], rfl, rfl, by simp⟩
  | cons ch rest ih =>
      intro l hl hkeys
      cases hct : chapterTargets ch with
      | none => rw [chaptersTargets] at hl; rw [hct] at hl; simp at hl
      | some a =>
          cases hrt : chaptersTargets rest with
          | none => rw [chaptersTargets] at hl; rw [hct, hrt] at hl; simp at hl
          | some b =>
              rw [chaptersTargets] at hl
              rw [hct, hrt] at hl
              simp at hl
              subst hl
              obtain ⟨calls, hc1, hc2, hc3⟩ := pass2ChapterCalls_spec pm ch a hct
                (fun k hk => hkeys k (List.mem_append.mpr (Or.inl hk)))
              obtain ⟨callsr, hs1, hs2, hs3⟩ := ih b hrt
                (fun k hk => hkeys k (List.mem_append.mpr (Or.inr hk)))
              refine ⟨calls ++ callsr, ?_, ?_, ?_⟩
              · rw [pass2ChaptersCalls]
                rw [hc1, hs1]
                rfl
              · rw [List.map_append, hc2, hs2]
              · intro c hc'
                rcases List.mem_append.mp hc' with h' | h'
                · exact hc3 c h'
                · exact hs3 c h'

/-- C4: after a successful pass 1, pass 2 recompiles exactly the outline and
every chapter-cover and page unit, in pass-1 emission order with the first two
units (cover and preface) dropped; every recompiled unit receives its resolved
starting page from the PageMap as its page offset; the outline alone
additionally receives the entire finalized PageMap, unmodified; and no other
unit receives a page map. -/
theorem pass2_resolution (h : Hierarchy) (counts : String → Int)
    (ts : List String) (pm : List (String × Int)) (cur : Int)
    (hts : emissionTargets h = some ts)
    (hp1 : pass1 h counts = some (pm, cur)) :
    ∃ calls, pass2Calls h pm = some calls ∧
      calls.map (·.target) = ts.drop 2 ∧
      ts.take 2 = ["cover", "preface"] ∧
      (∀ c ∈ calls, c.page_offset = dictGet pm c.target) ∧
      calls.head?.map (·.pageMapArg) = some (some pm) ∧
      (∀ c ∈ calls.tail, c.pageMapArg = none) := by
  obtain ⟨l, hl, rfl⟩ : ∃ l, chaptersTargets h = some l ∧
      ts = "cover" :: "preface" :: "outline" :: l := by
    cases hct : chaptersTargets h with
    | none => rw [emissionTargets, hct] at hts; simp at hts
    | some l =>
        rw [emissionTargets, hct] at hts
        simp only [Option.map_some', Option.some.injEq] at hts
        exact ⟨l, rfl, hts.symm⟩
  have hpm : pass1Loop counts [] 1 ("cover" :: "preface" :: "outline" :: l) =
      (pm, cur) := by
    rw [pass1, emissionTargets, hl] at hp1
    simpa using hp1
  have hkeys : ∀ k, k ∈ ("cover" :: "preface" :: "outline" :: l : List String) →
      containsKey pm k = true := by
    intro k hk
    have hmem := (containsKey_pass1Loop counts _ [] 1 k).mpr (Or.inr hk)
    rwa [hpm] at hmem
  obtain ⟨ov, hov⟩ := dictGet_isSome pm "outline" (hkeys _ (by simp))
  obtain ⟨calls, hs1, hs2, hs3⟩ := pass2ChaptersCalls_spec pm h l hl
    (fun k hk => hkeys k (by simp [hk]))
  refine ⟨CompileCall.mk "outline" (some ov) (some pm) :: calls,
    ?_, ?_, rfl, ?_, rfl, ?_⟩
  · rw [pass2Calls, hov, hs1]
    rfl
  · simp [hs2]
  · rintro c hc'
    rcases List.mem_cons.mp hc' with rfl | hc''
    · exact hov.symm
    · exact (hs3 c hc'').1
  · intro c hc'
    exact (hs3 c (by simpa using hc')).2

/-- C4 witness at the worked example. -/
theorem pass2_resolution_witness :
    ∃ calls, pass2Calls exampleHierarchy
        [("cover", 1), ("preface", 2), ("outline", 4), ("chapter-01", 5),
         ("01a", 6), ("01b", 9), ("chapter-02", 11), ("02a", 12)] = some calls ∧
      calls.map (·.target) =
        ["outline", "chapter-01", "01a", "01b", "chapter-02", "02a"] := by
  obtain ⟨calls, h1, h2, -, -, -, -⟩ :=
    pass2_resolution exampleHierarchy exampleCounts
      ["cover", "preface", "outline", "chapter-01", "01a", "01b",
       "chapter-02", "02a"]
      [("cover", 1), ("preface", 2), ("outline", 4), ("chapter-01", 5),
       ("01a", 6), ("01b", 9), ("chapter-02", 11), ("02a", 12)] 16 rfl rfl
  exact ⟨calls, h1, h2⟩


/-- Python `str.split(c)` on a single separator character: splits at every
occurrence of `c`, keeping empty fields (so the result is always nonempty). -/
def splitOnChar (c : Char) : List Char → List (List Char)
  | [] => [[]]
  | x :: rest =>
      match splitOnChar c rest with
      | [] => [[]]
      | l :: ls => if x = c then [] :: l :: ls else (x :: l) :: ls

/-- Python `str.strip()`: remove leading and trailing whitespace. -/
def pyStrip (l : List Char) : List Char :=
  ((l.dropWhile (·.isWhitespace)).reverse.dropWhile (·.isWhitespace)).reverse

/-- The digit run of a Python `int()` literal: nonempty decimal digits in
which a single underscore may separate two digits (`1_000`), but may not
lead, trail, or repeat. -/
def pyDigits : List Char → Bool
  | [] => false
  | [c] => c.isDigit
  | c :: c2 :: rest =>
      if c2 = '_' then c.isDigit && pyDigits rest
      else c.isDigit && pyDigits (c2 :: rest)

/-- Numeric value of a digit run, underscores skipped. -/
def digitsValue (l : List Char) : Nat :=
  l.foldl (fun a c => if c.isDigit then a * 10 + (c.toNat - 48) else a) 0

/-- Python `int(s)` applied to an already stripped string: an optional sign
followed by a digit run; `none` models the `ValueError` build.py catches. -/
def pyInt (s : List Char) : Option Int :=
  match s with
  | '+' :: rest => if pyDigits rest then some (digitsValue rest) else none
  | '-' :: rest => if pyDigits rest then some (-(digitsValue rest : Int)) else none
  | l => if pyDigits l then some (digitsValue l) else none

/-- `get_pdf_page_count` (build.py lines 52-66): run `pdfinfo` on the file; on
nonzero exit return 0 (the caught `CalledProcessError`); otherwise scan the
stdout lines (`result.stdout.split('\n')`) for the first one starting with
`Pages:`, take the text between the first and second colon
(`line.split(':')[1]`), strip it and parse it as a Python int, returning 0 on
`ValueError` or when no line matches.  The two oracle arguments are the
tool's exit status and its stdout; the function never raises. -/
def get_pdf_page_count (exitZero : Bool) (stdout : List Char) : Int :=
  if exitZero then
    match (splitOnChar '\n' stdout).find?
        (fun l => List.isPrefixOf "Pages:".toList l) with
    | some line =>
      match pyInt (pyStrip ((splitOnChar ':' line).getD 1 [])) with
      | some n => n
      | none => 0
    | none => 0
  else 0

/-- The page-count reader as claim C8 words it: 0 when the tool exits
nonzero, when no stdout line starts with the `Pages:` marker, or when the
value after the marker is not an integer; otherwise the integer of the first
line matching `Pages: <int>`.  Here "the value after the marker" is the whole
remainder of the line (everything past the 6 characters of `Pages:`), which
is where this reading differs from the code. -/
def claimedPageCount (exitZero : Bool) (stdout : List Char) : Int :=
  if exitZero then
    match (splitOnChar '\n' stdout).find?
        (fun l => List.isPrefixOf "Pages:".toList l) with
    | some line =>
      match pyInt (pyStrip (line.drop 6)) with
      | some n => n
      | none => 0
    | none => 0
  else 0

/-- C8 counterexample: on stdout `Pages: 7:x` the value after the marker,
` 7:x`, is not an integer, so the claim as stated requires 0; the code splits
the line at colons and parses only the field ` 7`, returning 7. -/
theorem get_pdf_page_count_counterexample :
    get_pdf_page_count true "Pages: 7:x".toList = 7 ∧
    claimedPageCount true "Pages: 7:x".toList = 0 ∧
    pyInt (pyStrip ("Pages: 7:x".toList.drop 6)) = none ∧
    get_pdf_page_count true "Pages: 7:x".toList ≠
      claimedPageCount true "Pages: 7:x".toList := by
  exact ⟨by decide, by decide, by decide, by decide⟩

/-- C8 (amended): the reader never raises and returns 0 when the tool exits
nonzero, when no stdout line starts with `Pages:`, or when the stripped text
between the first and second colon of the first such line is not a Python
integer; otherwise it returns that parsed integer. -/
theorem get_pdf_page_count_spec (exitZero : Bool) (stdout : List Char) :
    (exitZero = false → get_pdf_page_count exitZero stdout = 0) ∧
    ((splitOnChar '\n' stdout).find?
        (fun l => List.isPrefixOf "Pages:".toList l) = none →
      get_pdf_page_count exitZero stdout = 0) ∧
    (∀ line,
      (splitOnChar '\n' stdout).find?
        (fun l => List.isPrefixOf "Pages:".toList l) = some line →
      exitZero = true →
      (pyInt (pyStrip ((splitOnChar ':' line).getD 1 [])) = none →
        get_pdf_page_count exitZero stdout = 0) ∧
      (∀ n, pyInt (pyStrip ((splitOnChar ':' line).getD 1 [])) = some n →
        get_pdf_page_count exitZero stdout = n)) := by
  refine ⟨?_, ?_, ?_⟩
  · rintro rfl
    rfl
  · intro hn
    unfold get_pdf_page_count
    cases exitZero with
    | false => rfl
    | true => rw [if_pos rfl, hn]
  · intro line hline he
    subst he
    constructor
    · intro hp
      unfold get_pdf_page_count
      rw [if_pos rfl, hline]
      show (match pyInt (pyStrip ((splitOnChar ':' line).getD 1 [])) with
        | some n => n
        | none => 0 : Int) = 0
      rw [hp]
    · intro n hp
      unfold get_pdf_page_count
      rw [if_pos rfl, hline]
      show (match pyInt (pyStrip ((splitOnChar ':' line).getD 1 [])) with
        | some n => n
        | none => 0) = n
      rw [hp]

/-- C8 witness: a well-formed `pdfinfo` output. -/
theorem get_pdf_page_count_spec_witness :
    get_pdf_page_count true "Producer: foo\nPages: 12\nEncrypted: no".toList = 12 :=
  ((get_pdf_page_count_spec true
      "Producer: foo\nPages: 12\nEncrypted: no".toList).2.2
    "Pages: 12".toList (by decide) rfl).2 12 (by decide)

/-- Fatal conditions that unwind out of `main` and terminate the process with
a nonzero exit status. -/
inductive BuildError where
  | missingDependency
  | hierarchyError
  | emptyChapter
  | keyError
  | compileError (target : String) (diagPrinted : Bool)
deriving Repr, DecidableEq

/-- Whether the error carried printed external-tool diagnostics to the
operator before unwinding. -/
def diagnosticsShown : BuildError → Bool
  | .compileError _ printed => printed
  | _ => false

/-- `compile_target` (build.py lines 91-114): invoke the external compiler;
return on success, raise on nonzero exit.  `quiet` controls whether the
captured stderr diagnostics are printed before re-raising (its Python default
is `True`, and `main` never overrides it); `ok` is the oracle for the
external tool's exit status on this invocation. -/
def compile_target (ok : Bool) (target : String) (quiet : Bool) :
    Except BuildError Unit :=
  if ok then .ok () else .error (.compileError target (!quiet))

/-- The spec's pipeline states reachable by `main`. -/
inductive Stage where
  | hierarchyLoaded
  | pass1Compiled
  | pageMapFinalized
  | pass2Compiled
  | merged
  | metadataApplied
  | linksApplied
  | zipped
  | cleanedUp
  | done
deriving Repr, DecidableEq

/-- Outcome of the merge stage. -/
inductive MergeOutcome where
  | noFiles
  | mergedWith (backend : String)
  | warnedNoBackend
deriving Repr, DecidableEq

/-- `merge_pdfs_with_command` (build.py lines 116-154): with no files print
and return; try `pdfunite`, then `gs`, returning on the first success; when
neither is available (or both fail) print a warning and return — this
function never raises.  Oracles: which backends `shutil.which` finds and
whether each invocation exits zero. -/
def merge_pdfs_with_command (havePdfunite pdfuniteOk haveGs gsOk : Bool)
    (existingFiles : List String) : MergeOutcome :=
  if existingFiles.isEmpty then .noFiles
  else if havePdfunite && pdfuniteOk then .mergedWith "pdfunite"
  else if haveGs && gsOk then .mergedWith "gs"
  else .warnedNoBackend

/-- Outcome of the metadata stage. -/
inductive MetadataOutcome where
  | appliedWith (backend : String)
  | warnedNoBackend
deriving Repr, DecidableEq

/-- `apply_pdf_metadata` (build.py lines 219-301): try `pdftk`, fall back to
`gs` pdfmarks, warn when neither works; never raises. -/
def apply_pdf_metadata (havePdftk pdftkOk haveGs gsOk : Bool) : MetadataOutcome :=
  if havePdftk && pdftkOk then .appliedWith "pdftk"
  else if haveGs && gsOk then .appliedWith "gs"
  else .warnedNoBackend

/-- The external world of one build run: the hierarchy the configuration
holds, per-target compiler exit statuses and page counts, which external
tools exist and succeed, and the CLI flag. -/
structure Env where
  depsOk : Bool
  hierarchyOk : Bool
  hierarchy : Hierarchy
  counts : String → Int
  compileOk : String → Bool
  havePdfunite : Bool
  pdfuniteOk : Bool
  haveGs : Bool
  gsOk : Bool
  havePdftk : Bool
  pdftkOk : Bool
  leaveIndividual : Bool

/-- Observable result of a completed (non-raising) run. -/
structure RunSummary where
  stages : List Stage
  page_map : List (String × Int)
  reportedTotal : Int
  mergeOutcome : MergeOutcome
  metadataOutcome : MetadataOutcome
  buildDirPresent : Bool
  zipPresent : Bool
deriving Repr, DecidableEq

/-- The pass-1 loop with the external compiler's exit status taken into
account: `compile_target(target, output)` is called with `quiet` left at its
Python default `True`, so a nonzero exit raises without printing the
captured stderr. -/
def pass1Run (compileOk : String → Bool) (counts : String → Int) :
    List (String × Int) → Int → List String →
    Except BuildError (List (String × Int) × Int)
  | pm, cur, [] => .ok (pm, cur)
  | pm, cur, t :: ts =>
      match compile_target (compileOk t) t true with
      | .error e => .error e
      | .ok _ => pass1Run compileOk counts (dictInsert pm t cur) (cur + counts t) ts

/-- The pass-2 loop: re-invoke the compiler for each planned call, again with
`quiet` defaulted to `True`. -/
def pass2Run (compileOk : String → Bool) : List CompileCall → Except BuildError Unit
  | [] => .ok ()
  | c :: rest =>
      match compile_target (compileOk c.target) c.target true with
      | .error e => .error e
      | .ok _ => pass2Run compileOk rest

/-- The stage trace of a successful run (build.py lines 433-607): hierarchy
extraction, pass 1, writing `page_map.json`, pass 2, merging, metadata
injection, optional zip archiving, then the unconditional removal of the
build directory (lines 600-603, "Always remove build directory"). -/
def mainStages (leaveIndividual : Bool) : List Stage :=
  [.hierarchyLoaded, .pass1Compiled, .pageMapFinalized, .pass2Compiled,
   .merged, .metadataApplied] ++
  (if leaveIndividual then [.zipped] else []) ++
  [.cleanedUp, .done]

/-- `main` (build.py lines 424-613) with external effects abstracted by the
environment.  An `Except.error` models an exception (or `sys.exit(1)`)
unwinding out of `main`, i.e. a nonzero process exit.  Two facts of the code
are mirrored here: `add_toc_links` (lines 303-422) is defined but never
invoked, so metadata injection is the last transformation before
archiving/cleanup; and the build directory holding every per-unit artifact is
always removed at the end, so `buildDirPresent` is `false` in every summary
and the artifacts survive only inside `build_pdfs.zip` when
`--leave-individual` was given. -/
def main (env : Env) : Except BuildError RunSummary :=
  if !env.depsOk then .error .missingDependency
  else if !env.hierarchyOk then .error .hierarchyError
  else match emissionTargets env.hierarchy with
  | none => .error .emptyChapter
  | some ts =>
    match pass1Run env.compileOk env.counts [] 1 ts with
    | .error e => .error e
    | .ok (pm, cur) =>
      match pass2Calls env.hierarchy pm with
      | none => .error .keyError
      | some calls =>
        match pass2Run env.compileOk calls with
        | .error e => .error e
        | .ok _ =>
          .ok { stages := mainStages env.leaveIndividual
                page_map := pm
                reportedTotal := cur - 1
                mergeOutcome := merge_pdfs_with_command env.havePdfunite
                  env.pdfuniteOk env.haveGs env.gsOk ts
                metadataOutcome := apply_pdf_metadata env.havePdftk env.pdftkOk
                  env.haveGs env.gsOk
                buildDirPresent := false
                zipPresent := env.leaveIndividual }

/-- The process exit status: 0 when `main` returns normally, 1 when an
exception unwinds (Python terminates with a nonzero status on an uncaught
exception, and `extract_hierarchy`/`check_dependencies` call `sys.exit(1)`). -/
def mainExitCode (env : Env) : Nat :=
  match main env with
  | .ok _ => 0
  | .error _ => 1

/-- A fully successful environment around the worked example: every tool
present and succeeding. -/
def exampleEnv : Env :=
  { depsOk := true
    hierarchyOk := true
    hierarchy := exampleHierarchy
    counts := exampleCounts
    compileOk := fun _ => true
    havePdfunite := true
    pdfuniteOk := true
    haveGs := true
    gsOk := true
    havePdftk := true
    pdftkOk := true
    leaveIndividual := false }

/-- The summary `main` produces on `exampleEnv`. -/
def exampleSummary : RunSummary :=
  { stages := mainStages false
    page_map := [("cover", 1), ("preface", 2), ("outline", 4), ("chapter-01", 5),
                 ("01a", 6), ("01b", 9), ("chapter-02", 11), ("02a", 12)]
    reportedTotal := 15
    mergeOutcome := .mergedWith "pdfunite"
    metadataOutcome := .appliedWith "pdftk"
    buildDirPresent := false
    zipPresent := false }

theorem main_example_run : main exampleEnv = .ok exampleSummary := rfl

theorem main_ok_inv (env : Env) (s : RunSummary) (hs : main env = .ok s) :
    ∃ ts pm cur, emissionTargets env.hierarchy = some ts ∧
      pass1Run env.compileOk env.counts [] 1 ts = .ok (pm, cur) ∧
      s = { stages := mainStages env.leaveIndividual
            page_map := pm
            reportedTotal := cur - 1
            mergeOutcome := merge_pdfs_with_command env.havePdfunite
              env.pdfuniteOk env.haveGs env.gsOk ts
            metadataOutcome := apply_pdf_metadata env.havePdftk env.pdftkOk
              env.haveGs env.gsOk
            buildDirPresent := false
            zipPresent := env.leaveIndividual } := by
  unfold main at hs
  split at hs
  · exact Except.noConfusion hs
  split at hs
  · exact Except.noConfusion hs
  split at hs
  · exact Except.noConfusion hs
  next ts hts =>
    split at hs
    · exact Except.noConfusion hs
    next pm cur hp1 =>
      split at hs
      · exact Except.noConfusion hs
      next calls hcalls =>
        split at hs
        · exact Except.noConfusion hs
        next u hp2 =>
          injection hs with h
          exact ⟨ts, pm, cur, hts, hp1, h.symm⟩

theorem linksApplied_not_mainStages (b : Bool) :
    Stage.linksApplied ∉ mainStages b := by
  cases b <;> decide

theorem done_mem_mainStages (b : Bool) : Stage.done ∈ mainStages b := by
  cases b <;> decide

theorem metadataApplied_mem_mainStages (b : Bool) :
    Stage.metadataApplied ∈ mainStages b := by
  cases b <;> decide

/-- C5 counterexample: a fully successful run (worked example, every backend
available) reaches DONE with metadata applied, yet never passes through a
link-annotation stage — `add_toc_links` (build.py lines 303-422) has no call
site in `main`. -/
theorem pipeline_no_links_counterexample :
    main exampleEnv = .ok exampleSummary ∧
    Stage.metadataApplied ∈ exampleSummary.stages ∧
    Stage.done ∈ exampleSummary.stages ∧
    Stage.linksApplied ∉ exampleSummary.stages := by
  exact ⟨rfl, by decide, by decide, by decide⟩

/-- C5 (amended): every successful run's stage trace is hierarchy loading,
pass 1, page-map finalization, pass 2, merge, metadata injection, the
optional archive, cleanup, done; no run passes through a link-annotation
stage, because `add_toc_links` is implemented but never invoked. -/
theorem pipeline_stage_trace (env : Env) (s : RunSummary)
    (hs : main env = .ok s) :
    s.stages = mainStages env.leaveIndividual ∧
    Stage.linksApplied ∉ s.stages ∧
    Stage.done ∈ s.stages ∧
    Stage.metadataApplied ∈ s.stages := by
  obtain ⟨ts, pm, cur, hts, hp1, rfl⟩ := main_ok_inv env s hs
  exact ⟨rfl, linksApplied_not_mainStages _, done_mem_mainStages _,
    metadataApplied_mem_mainStages _⟩

/-- C5 witness at the worked example. -/
theorem pipeline_stage_trace_witness :
    exampleSummary.stages = mainStages false ∧
    Stage.linksApplied ∉ exampleSummary.stages ∧
    Stage.done ∈ exampleSummary.stages ∧
    Stage.metadataApplied ∈ exampleSummary.stages :=
  pipeline_stage_trace exampleEnv exampleSummary rfl

/-- An environment with zero merge backends: neither `pdfunite` nor `gs` is
installed. -/
def noMergeEnv : Env :=
  { depsOk := true
    hierarchyOk := true
    hierarchy := exampleHierarchy
    counts := exampleCounts
    compileOk := fun _ => true
    havePdfunite := false
    pdfuniteOk := false
    haveGs := false
    gsOk := false
    havePdftk := true
    pdftkOk := true
    leaveIndividual := false }

/-- The summary `main` produces on `noMergeEnv`. -/
def noMergeSummary : RunSummary :=
  { stages := mainStages false
    page_map := [("cover", 1), ("preface", 2), ("outline", 4), ("chapter-01", 5),
                 ("01a", 6), ("01b", 9), ("chapter-02", 11), ("02a", 12)]
    reportedTotal := 15
    mergeOutcome := .warnedNoBackend
    metadataOutcome := .appliedWith "pdftk"
    buildDirPresent := false
    zipPresent := false }

/-- C6 counterexample: with zero merge backends the run still completes with
exit code 0 and a merge-stage warning, but the per-unit artifacts do NOT
remain on disk at the end of the run: the unconditional cleanup (build.py
lines 600-603) removes the build directory, and without `--leave-individual`
no archive is kept either. -/
theorem merge_degrade_counterexample :
    main noMergeEnv = .ok noMergeSummary ∧
    mainExitCode noMergeEnv = 0 ∧
    noMergeSummary.mergeOutcome = MergeOutcome.warnedNoBackend ∧
    noMergeSummary.buildDirPresent = false ∧
    noMergeSummary.zipPresent = false := by
  exact ⟨rfl, rfl, rfl, rfl, rfl⟩

/-- C6 (amended): with zero merge backends the merge stage emits its warning
and never raises, and the pipeline still reaches DONE with exit code 0; the
merge stage leaves every per-unit artifact in place, but at the end of the
run the artifacts are deleted together with the build directory, surviving
only inside the zip archive when `--leave-individual` was passed. -/
theorem merge_degrade (env : Env) (s : RunSummary)
    (hnp : env.havePdfunite = false) (hng : env.haveGs = false)
    (hs : main env = .ok s) :
    s.mergeOutcome = MergeOutcome.warnedNoBackend ∧
    mainExitCode env = 0 ∧
    Stage.done ∈ s.stages ∧
    s.buildDirPresent = false ∧
    s.zipPresent = env.leaveIndividual := by
  obtain ⟨ts, pm, cur, hts, hp1, rfl⟩ := main_ok_inv env s hs
  obtain ⟨l, hl, rfl⟩ : ∃ l, chaptersTargets env.hierarchy = some l ∧
      ts = "cover" :: "preface" :: "outline" :: l := by
    cases hct : chaptersTargets env.hierarchy with
    | none => rw [emissionTargets, hct] at hts; simp at hts
    | some l =>
        rw [emissionTargets, hct] at hts
        simp only [Option.map_some', Option.some.injEq] at hts
        exact ⟨l, rfl, hts.symm⟩
  refine ⟨?_, ?_, done_mem_mainStages _, rfl, rfl⟩
  · simp [merge_pdfs_with_command, hnp, hng]
  · simp [mainExitCode, hs]

/-- C6 witness. -/
theorem merge_degrade_witness :
    noMergeSummary.mergeOutcome = MergeOutcome.warnedNoBackend ∧
    mainExitCode noMergeEnv = 0 ∧
    Stage.done ∈ noMergeSummary.stages ∧
    noMergeSummary.buildDirPresent = false ∧
    noMergeSummary.zipPresent = noMergeEnv.leaveIndividual :=
  merge_degrade noMergeEnv noMergeSummary rfl rfl rfl

theorem pass1Run_first_failure (compileOk : String → Bool) (counts : String → Int) :
    ∀ (ts : List String) pm cur, ts.any (fun t => !compileOk t) = true →
      ∃ t ∈ ts, compileOk t = false ∧
        pass1Run compileOk counts pm cur ts = .error (.compileError t false) := by
  intro ts
  induction ts with
  | nil => intro pm cur h; simp at h
  | cons t ts ih =>
      intro pm cur h
      cases hok : compileOk t with
      | false =>
          refine ⟨t, List.mem_cons_self _ _, hok, ?_⟩
          rw [pass1Run, compile_target, hok]
          rfl
      | true =>
          have h' : ts.any (fun u => !compileOk u) = true := by
            rw [List.any_cons, hok] at h
            simpa using h
          obtain ⟨u, hu, hu2, hu3⟩ := ih (dictInsert pm t cur) (cur + counts t) h'
          refine ⟨u, List.mem_cons_of_mem _ hu, hu2, ?_⟩
          rw [pass1Run, compile_target, hok]
          exact hu3

theorem main_pass1_error (env : Env) (ts : List String) (e : BuildError)
    (hdeps : env.depsOk = true) (hok : env.hierarchyOk = true)
    (hts : emissionTargets env.hierarchy = some ts)
    (he : pass1Run env.compileOk env.counts [] 1 ts = .error e) :
    main env = .error e := by
  simp [main, hdeps, hok, hts, he]

/-- An environment in which the external compiler fails on the cover unit. -/
def failEnv : Env :=
  { exampleEnv with compileOk := fun t => !(decide (t = "cover")) }

/-- C7 counterexample: the failing compile is fatal with nonzero exit, but
the error carries no printed diagnostics: `main` calls `compile_target` with
`quiet` left at its default `True`, so the captured stderr is never shown to
the operator. -/
theorem compile_failure_counterexample :
    main failEnv = .error (.compileError "cover" false) ∧
    diagnosticsShown (.compileError "cover" false) = false ∧
    mainExitCode failEnv = 1 := by
  exact ⟨rfl, rfl, rfl⟩

/-- C7 (amended): a nonzero exit of the external compiler for any unit is
fatal — the exception unwinds to the top level and the whole build exits
nonzero — but the diagnostics captured from the tool's error stream are not
surfaced: they are printed only when `quiet` is false, and `main` always
leaves `quiet` at its default `True`. -/
theorem compile_failure_fatal (env : Env) (ts : List String)
    (hdeps : env.depsOk = true) (hok : env.hierarchyOk = true)
    (hts : emissionTargets env.hierarchy = some ts)
    (hbad : ts.any (fun t => !env.compileOk t) = true) :
    ∃ t ∈ ts, env.compileOk t = false ∧
      main env = .error (.compileError t false) ∧
      diagnosticsShown (.compileError t false) = false ∧
      mainExitCode env = 1 := by
  obtain ⟨t, ht, hcf, herr⟩ :=
    pass1Run_first_failure env.compileOk env.counts ts [] 1 hbad
  have hm := main_pass1_error env ts _ hdeps hok hts herr
  refine ⟨t, ht, hcf, hm, rfl, ?_⟩
  simp [mainExitCode, hm]

/-- C7 witness. -/
theorem compile_failure_fatal_witness :
    ∃ t ∈ ["cover", "preface", "outline", "chapter-01", "01a", "01b",
           "chapter-02", "02a"],
      failEnv.compileOk t = false ∧
      main failEnv = .error (.compileError t false) ∧
      diagnosticsShown (.compileError t false) = false ∧
      mainExitCode failEnv = 1 :=
  compile_failure_fatal failEnv
    ["cover", "preface", "outline", "chapter-01", "01a", "01b",
     "chapter-02", "02a"] rfl rfl rfl (by decide)

/-- One link annotation `add_toc_links` builds (build.py lines 342-403),
tagged with the unit id whose page-map entry produced it: the 0-indexed
destination page `page_map[key] - 1` and the rectangle computed from the
fixed layout constants (`y_start=650`, `line_height=25`,
`chapter_spacing=60`). -/
structure LinkAnn where
  key : String
  destPage : Int
  rectLeft : Int
  rectBottom : Int
  rectRight : Int
  rectTop : Int
deriving Repr, DecidableEq

/-- The page-entry links of one chapter (build.py lines 373-400), threading
the running `current_y`: a link is created — and `current_y` advanced by
`line_height` — only when the page id is in the page map. -/
def tocPageLinks (pm : List (String × Int)) : Int → List Page → List LinkAnn × Int
  | y, [] => ([], y)
  | y, pg :: rest =>
    match dictGet pm pg.id with
    | some v =>
        let r := tocPageLinks pm (y - 25) rest
        (LinkAnn.mk pg.id (v - 1) 70 (y - 5) 550 (y + 15) :: r.1, r.2)
    | none => tocPageLinks pm y rest

/-- One chapter's links (build.py lines 342-402): the chapter-cover link when
`chapter-<id>` is in the page map (advancing `current_y` by
`line_height + 10`), then the page links, then the extra `chapter_spacing`.
`none` models the `IndexError` of `chapter["pages"][0]` on an empty chapter,
which the blanket `except Exception` turns into "no links at all". -/
def tocChapterLinks (pm : List (String × Int)) (y : Int) (ch : Chapter) :
    Option (List LinkAnn × Int) :=
  match ch.pages.head? with
  | none => none
  | some p =>
    match dictGet pm ("chapter-" ++ p.id.take 2) with
    | some v =>
        let r := tocPageLinks pm (y - 35) ch.pages
        some (LinkAnn.mk ("chapter-" ++ p.id.take 2) (v - 1) 50 (y - 5) 550
          (y + 20) :: r.1, r.2 - 60)
    | none =>
        let r := tocPageLinks pm y ch.pages
        some (r.1, r.2 - 60)

/-- All chapters' links in hierarchy order, threading `current_y`. -/
def tocLinksChapters (pm : List (String × Int)) : Int → Hierarchy →
    Option (List LinkAnn)
  | _, [] => some []
  | y, ch :: rest =>
    match tocChapterLinks pm y ch with
    | none => none
    | some r =>
      match tocLinksChapters pm r.2 rest with
      | none => none
      | some more => some (r.1 ++ more)

/-- `add_toc_links` (build.py lines 303-422): build one link annotation per
chapter-cover and page entry present in the page map, walking approximate
layout positions from `y_start = 650`, and append them all to the annotation
list of the page at physical index `toc_page` of the merged file — a fixed
parameter (defaulting to 2 at the Python definition, no caller overrides it),
never looked up from `page_map["outline"]`.  The result pairs the index of
the page that receives the annotations with the annotations.  `none` models
the blanket `except Exception` path (e.g. an empty chapter): the function
then warns and leaves the file unchanged. -/
def add_toc_links (pm : List (String × Int)) (h : Hierarchy) (toc_page : Nat) :
    Option (Nat × List LinkAnn) :=
  (tocLinksChapters pm 650 h).map (fun links => (toc_page, links))

theorem tocPageLinks_mem (pm : List (String × Int)) :
    ∀ (pages : List Page) (y : Int) (a : LinkAnn),
      a ∈ (tocPageLinks pm y pages).1 →
        (∃ pg ∈ pages, a.key = pg.id) ∧ dictGet pm a.key = some (a.destPage + 1) := by
  intro pages
  induction pages with
  | nil => intro y a ha; simp [tocPageLinks] at ha
  | cons pg rest ih =>
      intro y a ha
      cases hv : dictGet pm pg.id with
      | none =>
          rw [tocPageLinks, hv] at ha
          obtain ⟨⟨q, hq, hk⟩, hd⟩ := ih y a ha
          exact ⟨⟨q, List.mem_cons_of_mem _ hq, hk⟩, hd⟩
      | some v =>
          rw [tocPageLinks, hv] at ha
          rcases List.mem_cons.mp ha with rfl | ha'
          · refine ⟨⟨pg, List.mem_cons_self _ _, rfl⟩, ?_⟩
            rw [hv]
            congr 1
            ring
          · obtain ⟨⟨q, hq, hk⟩, hd⟩ := ih (y - 25) a ha'
            exact ⟨⟨q, List.mem_cons_of_mem _ hq, hk⟩, hd⟩

theorem tocChapterLinks_mem (pm : List (String × Int)) (y : Int) (ch : Chapter)
    (r : List LinkAnn × Int) (hr : tocChapterLinks pm y ch = some r)
    (a : LinkAnn) (ha : a ∈ r.1) :
    ((∃ p, ch.pages.head? = some p ∧ a.key = "chapter-" ++ p.id.take 2) ∨
      (∃ pg ∈ ch.pages, a.key = pg.id)) ∧
    dictGet pm a.key = some (a.destPage + 1) := by
  cases hp : ch.pages.head? with
  | none => rw [tocChapterLinks, hp] at hr; exact Option.noConfusion hr
  | some p =>
      simp only [tocChapterLinks, hp] at hr
      cases hv : dictGet pm ("chapter-" ++ p.id.take 2) with
      | some v =>
          rw [hv] at hr
          injection hr with hr'
          rw [← hr'] at ha
          rcases List.mem_cons.mp ha with rfl | ha'
          · refine ⟨Or.inl ⟨p, rfl, rfl⟩, ?_⟩
            rw [hv]
            congr 1
            ring
          · obtain ⟨hsrc, hd⟩ := tocPageLinks_mem pm ch.pages (y - 35) a ha'
            exact ⟨Or.inr hsrc, hd⟩
      | none =>
          rw [hv] at hr
          injection hr with hr'
          rw [← hr'] at ha
          obtain ⟨hsrc, hd⟩ := tocPageLinks_mem pm ch.pages y a ha
          exact ⟨Or.inr hsrc, hd⟩

theorem tocLinksChapters_mem (pm : List (String × Int)) :
    ∀ (h : Hierarchy) (y : Int) (links : List LinkAnn),
      tocLinksChapters pm y h = some links →
      ∀ a ∈ links,
        (∃ ch ∈ h,
          (∃ p, ch.pages.head? = some p ∧ a.key = "chapter-" ++ p.id.take 2) ∨
          (∃ pg ∈ ch.pages, a.key = pg.id)) ∧
        dictGet pm a.key = some (a.destPage + 1) := by
  intro h
  induction h with
  | nil =>
      intro y links hl a ha
      rw [tocLinksChapters] at hl
      injection hl with hl'
      rw [← hl'] at ha
      simp at ha
  | cons ch rest ih =>
      intro y links hl a ha
      cases hc : tocChapterLinks pm y ch with
      | none => simp [tocLinksChapters, hc] at hl
      | some r =>
          cases hm : tocLinksChapters pm r.2 rest with
          | none => simp [tocLinksChapters, hc, hm] at hl
          | some more =>
              simp only [tocLinksChapters, hc, hm, Option.some.injEq] at hl
              rw [← hl] at ha
              rcases List.mem_append.mp ha with ha' | ha'
              · obtain ⟨hsrc, hd⟩ := tocChapterLinks_mem pm y ch r hc a ha'
                exact ⟨⟨ch, List.mem_cons_self _ _, hsrc⟩, hd⟩
              · obtain ⟨⟨c, hcmem, hsrc⟩, hd⟩ := ih r.2 more hm a ha'
                exact ⟨⟨c, List.mem_cons_of_mem _ hcmem, hsrc⟩, hd⟩

/-- C9: for every page map and hierarchy, whatever `add_toc_links` attaches
goes to the page at the fixed physical index given by its `toc_page`
parameter — the attachment index never depends on the page map, in
particular not on `page_map["outline"]`, so links land on the wrong page
whenever the outline does not actually start there — and every annotation
belongs to a chapter-cover or page entry of the hierarchy that is present in
the page map, with destination `page_map[key] - 1`; none belongs to the
cover, preface, or outline bookmark entries. -/
theorem add_toc_links_spec (pm : List (String × Int)) (h : Hierarchy)
    (tp : Nat) (res : Nat × List LinkAnn)
    (hres : add_toc_links pm h tp = some res) :
    res.1 = tp ∧
    (∀ (pm₂ : List (String × Int)) (res₂ : Nat × List LinkAnn),
      add_toc_links pm₂ h tp = some res₂ → res₂.1 = res.1) ∧
    (∀ a ∈ res.2,
      (∃ ch ∈ h,
        (∃ p, ch.pages.head? = some p ∧ a.key = "chapter-" ++ p.id.take 2) ∨
        (∃ pg ∈ ch.pages, a.key = pg.id)) ∧
      containsKey pm a.key = true ∧
      dictGet pm a.key = some (a.destPage + 1)) := by
  obtain ⟨links, hlinks, hpair⟩ := Option.map_eq_some'.mp hres
  refine ⟨by rw [← hpair], ?_, ?_⟩
  · intro pm₂ res₂ hres₂
    obtain ⟨links₂, hlinks₂, hpair₂⟩ := Option.map_eq_some'.mp hres₂
    rw [← hpair₂, ← hpair]
  · intro a ha
    rw [← hpair] at ha
    obtain ⟨hsrc, hd⟩ := tocLinksChapters_mem pm h 650 links hlinks a ha
    refine ⟨hsrc, ?_, hd⟩
    have hsome : (pm.find? (fun q => q.1 = a.key)).isSome := by
      unfold dictGet at hd
      cases hf : pm.find? (fun q => q.1 = a.key) with
      | none => rw [hf] at hd; exact Option.noConfusion hd
      | some q => rfl
    unfold containsKey
    rw [List.any_eq_true]
    obtain ⟨q, hq1, hq2⟩ := List.find?_isSome.mp hsome
    exact ⟨q, hq1, hq2⟩

/-- The annotations `add_toc_links` builds on the worked example. -/
def exampleTocLinks : List LinkAnn :=
  [LinkAnn.mk "chapter-01" 4 50 645 550 670,
   LinkAnn.mk "01a" 5 70 610 550 630,
   LinkAnn.mk "01b" 8 70 585 550 605,
   LinkAnn.mk "chapter-02" 10 50 500 550 525,
   LinkAnn.mk "02a" 11 70 465 550 485]

/-- The worked-example PageMap produced by pass 1, as a standalone value. -/
def examplePageMap : List (String × Int) :=
  [("cover", 1), ("preface", 2), ("outline", 4), ("chapter-01", 5),
   ("01a", 6), ("01b", 9), ("chapter-02", 11), ("02a", 12)]

/-- C9 witness at the worked example, with the Python default `toc_page = 2`
(the third physical page). -/
theorem add_toc_links_spec_witness :
    ((2, exampleTocLinks) : ℕ × List LinkAnn).1 = 2 ∧
    (∀ (pm₂ : List (String × Int)) (res₂ : ℕ × List LinkAnn),
      add_toc_links pm₂ exampleHierarchy 2 = some res₂ →
        res₂.1 = ((2, exampleTocLinks) : ℕ × List LinkAnn).1) ∧
    (∀ a ∈ ((2, exampleTocLinks) : ℕ × List LinkAnn).2,
      (∃ ch ∈ exampleHierarchy,
        (∃ p, ch.pages.head? = some p ∧ a.key = "chapter-" ++ p.id.take 2) ∨
        (∃ pg ∈ ch.pages, a.key = pg.id)) ∧
      containsKey examplePageMap a.key = true ∧
      dictGet examplePageMap a.key = some (a.destPage + 1)) :=
  add_toc_links_spec examplePageMap exampleHierarchy 2 (2, exampleTocLinks) rfl

/-- One 4-line bookmark record (build.py lines 174-210), tagged with the unit
id whose page-map entry produced it. -/
structure Bookmark where
  key : String
  title : String
  level : Nat
  page : Int
deriving Repr, DecidableEq

/-- The four text lines of one record:
`BookmarkBegin`/`BookmarkTitle`/`BookmarkLevel`/`BookmarkPageNumber`. -/
def bookmarkLines (b : Bookmark) : List String :=
  ["BookmarkBegin",
   "BookmarkTitle: " ++ b.title,
   "BookmarkLevel: " ++ toString b.level,
   "BookmarkPageNumber: " ++ toString b.page]

/-- One `if <key> in page_map: append a level-1 record` block of
`create_pdf_metadata` (build.py lines 173-189 and 197-201). -/
def keyedBookmark (pm : List (String × Int)) (k ttl : String) : List Bookmark :=
  match dictGet pm k with
  | some v => [Bookmark.mk k ttl 1 v]
  | none => []

/-- The per-page level-2 records of one chapter (build.py lines 204-210):
pages absent from the page map are silently skipped. -/
def pageBookmarks (pm : List (String × Int)) : List Page → List Bookmark
  | [] => []
  | pg :: rest =>
    match dictGet pm pg.id with
    | some v => Bookmark.mk pg.id pg.title 2 v :: pageBookmarks pm rest
    | none => pageBookmarks pm rest

/-- One chapter's records (build.py lines 192-210): a level-1 record titled
with the chapter title under key `chapter-<id>` when present, then the
level-2 page records.  `none` when the chapter has no pages
(`chapter["pages"][0]` raises). -/
def chapterBookmarks (pm : List (String × Int)) (ch : Chapter) :
    Option (List Bookmark) :=
  match ch.pages.head? with
  | none => none
  | some p =>
    some (keyedBookmark pm ("chapter-" ++ p.id.take 2) ch.title ++
      pageBookmarks pm ch.pages)

/-- All chapters' records in hierarchy order. -/
def chaptersBookmarks (pm : List (String × Int)) : Hierarchy → Option (List Bookmark)
  | [] => some []
  | ch :: rest =>
    match chapterBookmarks pm ch with
    | none => none
    | some a =>
      match chaptersBookmarks pm rest with
      | none => none
      | some b => some (a ++ b)

/-- The three leading level-1 records (build.py lines 173-189): Cover,
Preface, Table of Contents, each emitted only when its key is present. -/
def leadingBookmarks (pm : List (String × Int)) : List Bookmark :=
  keyedBookmark pm "cover" "Cover" ++ keyedBookmark pm "preface" "Preface" ++
  keyedBookmark pm "outline" "Table of Contents"

/-- `create_pdf_metadata` (build.py lines 166-217): the full record list in
bookmark order — cover, preface, outline, then per chapter its chapter
record and page records.  `none` when some chapter has no pages. -/
def create_pdf_metadata (hierarchy : Hierarchy) (pm : List (String × Int)) :
    Option (List Bookmark) :=
  (chaptersBookmarks pm hierarchy).map (fun l => leadingBookmarks pm ++ l)

/-- A hierarchy whose two chapters share the derived id `01` (first two
characters of their first page ids `01a` and `01b`). -/
def dupChapterHierarchy : Hierarchy :=
  [⟨"A", [⟨"01a", "A1"⟩]⟩, ⟨"B", [⟨"01b", "B1"⟩]⟩]

/-- C10 counterexample: with two chapters sharing unit id `chapter-01`, the
builder emits TWO records for that single unit id present in the page map —
not exactly one. -/
theorem create_pdf_metadata_counterexample :
    create_pdf_metadata dupChapterHierarchy [("chapter-01", 5)] =
      some [Bookmark.mk "chapter-01" "A" 1 5, Bookmark.mk "chapter-01" "B" 1 5] ∧
    containsKey [("chapter-01", 5)] "chapter-01" = true ∧
    ((create_pdf_metadata dupChapterHierarchy [("chapter-01", 5)]).getD []).countP
      (fun b => b.key = "chapter-01") = 2 := by
  exact ⟨rfl, rfl, rfl⟩

theorem dictGet_isSome_eq (m : List (String × Int)) (k : String) :
    (dictGet m k).isSome = containsKey m k := by
  unfold dictGet containsKey
  rw [Option.isSome_map']
  rw [Bool.eq_iff_iff]
  constructor
  · intro hs
    obtain ⟨p, hp, hpk⟩ := List.find?_isSome.mp hs
    rw [List.any_eq_true]
    exact ⟨p, hp, hpk⟩
  · intro ha
    rw [List.any_eq_true] at ha
    obtain ⟨p, hp, hpk⟩ := ha
    exact List.find?_isSome.mpr ⟨p, hp, hpk⟩

theorem keyedBookmark_map (pm : List (String × Int)) (k ttl : String) :
    (keyedBookmark pm k ttl).map (fun b => b.key) =
      if containsKey pm k then [k] else [] := by
  cases hv : dictGet pm k with
  | none =>
      have hc : containsKey pm k = false := by rw [← dictGet_isSome_eq, hv]; rfl
      simp [keyedBookmark, hv, hc]
  | some v =>
      have hc : containsKey pm k = true := by rw [← dictGet_isSome_eq, hv]; rfl
      simp [keyedBookmark, hv, hc]

theorem keyedBookmark_mem (pm : List (String × Int)) (k ttl : String)
    (b : Bookmark) (hb : b ∈ keyedBookmark pm k ttl) :
    b.level = 1 ∧ b.key = k ∧ b.title = ttl ∧ dictGet pm b.key = some b.page := by
  cases hv : dictGet pm k with
  | none => rw [keyedBookmark, hv] at hb; simp at hb
  | some v =>
      rw [keyedBookmark, hv] at hb
      rw [List.mem_singleton] at hb
      subst hb
      exact ⟨rfl, rfl, rfl, hv⟩

theorem pageBookmarks_keys (pm : List (String × Int)) :
    ∀ pages : List Page,
      (pageBookmarks pm pages).map (fun b => b.key) =
        (pages.map (fun pg => pg.id)).filter (fun k => containsKey pm k) := by
  intro pages
  induction pages with
  | nil => rfl
  | cons pg rest ih =>
      cases hv : dictGet pm pg.id with
      | some v =>
          have hc : containsKey pm pg.id = true := by
            rw [← dictGet_isSome_eq, hv]; rfl
          simp [pageBookmarks, hv, List.filter_cons, hc, ih]
      | none =>
          have hc : containsKey pm pg.id = false := by
            rw [← dictGet_isSome_eq, hv]; rfl
          simp [pageBookmarks, hv, List.filter_cons, hc, ih]

theorem pageBookmarks_mem (pm : List (String × Int)) :
    ∀ (pages : List Page) (b : Bookmark), b ∈ pageBookmarks pm pages →
      b.level = 2 ∧ (∃ pg ∈ pages, b.key = pg.id ∧ b.title = pg.title) ∧
      dictGet pm b.key = some b.page := by
  intro pages
  induction pages with
  | nil => intro b hb; simp [pageBookmarks] at hb
  | cons pg rest ih =>
      intro b hb
      cases hv : dictGet pm pg.id with
      | some v =>
          rw [pageBookmarks, hv] at hb
          rcases List.mem_cons.mp hb with rfl | hb'
          · exact ⟨rfl, ⟨pg, List.mem_cons_self _ _, rfl, rfl⟩, hv⟩
          · obtain ⟨hl, ⟨q, hq, hk⟩, hd⟩ := ih b hb'
            exact ⟨hl, ⟨q, List.mem_cons_of_mem _ hq, hk⟩, hd⟩
      | none =>
          rw [pageBookmarks, hv] at hb
          obtain ⟨hl, ⟨q, hq, hk⟩, hd⟩ := ih b hb
          exact ⟨hl, ⟨q, List.mem_cons_of_mem _ hq, hk⟩, hd⟩

theorem chapterBookmarks_keys (pm : List (String × Int)) (ch : Chapter)
    (a : List String) (hct : chapterTargets ch = some a) :
    ∃ bms, chapterBookmarks pm ch = some bms ∧
      bms.map (fun b => b.key) = a.filter (fun k => containsKey pm k) := by
  cases hp : ch.pages with
  | nil => rw [chapterTargets, hp] at hct; simp at hct
  | cons p ps =>
      rw [chapterTargets, hp] at hct
      simp only [Option.some.injEq] at hct
      subst hct
      refine ⟨keyedBookmark pm ("chapter-" ++ p.id.take 2) ch.title ++
        pageBookmarks pm ch.pages, by simp [chapterBookmarks, hp], ?_⟩
      rw [List.map_append, keyedBookmark_map, pageBookmarks_keys, hp,
        List.filter_cons]
      cases hc : containsKey pm ("chapter-" ++ p.id.take 2) <;> simp

theorem chapterBookmarks_mem (pm : List (String × Int)) (ch : Chapter)
    (bms : List Bookmark) (hcb : chapterBookmarks pm ch = some bms)
    (b : Bookmark) (hb : b ∈ bms) :
    ((b.level = 1 ∧ ∃ p, ch.pages.head? = some p ∧
        b.key = "chapter-" ++ p.id.take 2 ∧ b.title = ch.title) ∨
     (b.level = 2 ∧ ∃ pg ∈ ch.pages, b.key = pg.id)) ∧
    dictGet pm b.key = some b.page := by
  cases hp : ch.pages.head? with
  | none => rw [chapterBookmarks, hp] at hcb; exact Option.noConfusion hcb
  | some p =>
      rw [chapterBookmarks, hp] at hcb
      injection hcb with hcb'
      rw [← hcb'] at hb
      rcases List.mem_append.mp hb with hb' | hb'
      · obtain ⟨hl, hk, httl, hd⟩ := keyedBookmark_mem pm _ _ b hb'
        exact ⟨Or.inl ⟨hl, p, rfl, hk, httl⟩, hd⟩
      · obtain ⟨hl, ⟨q, hq, hk, -⟩, hd⟩ := pageBookmarks_mem pm ch.pages b hb'
        exact ⟨Or.inr ⟨hl, q, hq, hk⟩, hd⟩

theorem chaptersBookmarks_keys (pm : List (String × Int)) :
    ∀ (h : Hierarchy) (l : List String), chaptersTargets h = some l →
      ∃ bms, chaptersBookmarks pm h = some bms ∧
        bms.map (fun b => b.key) = l.filter (fun k => containsKey pm k) := by
  intro h
  induction h with
  | nil =>
      intro l hl
      simp [chaptersTargets] at hl
      subst hl
      exact ⟨[], rfl, rfl⟩
  | cons ch rest ih =>
      intro l hl
      cases hct : chapterTargets ch with
      | none => rw [chaptersTargets] at hl; rw [hct] at hl; simp at hl
      | some a =>
          cases hrt : chaptersTargets rest with
          | none => rw [chaptersTargets] at hl; rw [hct, hrt] at hl; simp at hl
          | some c =>
              rw [chaptersTargets] at hl
              rw [hct, hrt] at hl
              simp at hl
              subst hl
              obtain ⟨bms1, hb1, hk1⟩ := chapterBookmarks_keys pm ch a hct
              obtain ⟨bms2, hb2, hk2⟩ := ih c hrt
              refine ⟨bms1 ++ bms2, ?_, ?_⟩
              · simp [chaptersBookmarks, hb1, hb2]
              · rw [List.map_append, hk1, hk2, List.filter_append]

theorem chaptersBookmarks_mem (pm : List (String × Int)) :
    ∀ (h : Hierarchy) (bms : List Bookmark),
      chaptersBookmarks pm h = some bms →
      ∀ b ∈ bms,
        ((b.level = 1 ∧ ∃ ch ∈ h, ∃ p, ch.pages.head? = some p ∧
            b.key = "chapter-" ++ p.id.take 2) ∨
         (b.level = 2 ∧ ∃ ch ∈ h, ∃ pg ∈ ch.pages, b.key = pg.id)) ∧
        dictGet pm b.key = some b.page := by
  intro h
  induction h with
  | nil =>
      intro bms hb b hmem
      rw [chaptersBookmarks] at hb
      injection hb with hb'
      rw [← hb'] at hmem
      simp at hmem
  | cons ch rest ih =>
      intro bms hb b hmem
      cases hcb : chapterBookmarks pm ch with
      | none => simp [chaptersBookmarks, hcb] at hb
      | some a =>
          cases hrb : chaptersBookmarks pm rest with
          | none => simp [chaptersBookmarks, hcb, hrb] at hb
          | some c =>
              simp only [chaptersBookmarks, hcb, hrb, Option.some.injEq] at hb
              rw [← hb] at hmem
              rcases List.mem_append.mp hmem with hm | hm
              · obtain ⟨hsrc, hd⟩ := chapterBookmarks_mem pm ch a hcb b hm
                rcases hsrc with ⟨hl, p, hp, hk, -⟩ | ⟨hl, q, hq, hk⟩
                · exact ⟨Or.inl ⟨hl, ch, List.mem_cons_self _ _, p, hp, hk⟩, hd⟩
                · exact ⟨Or.inr ⟨hl, ch, List.mem_cons_self _ _, q, hq, hk⟩, hd⟩
              · obtain ⟨hsrc, hd⟩ := ih c hrb b hm
                rcases hsrc with ⟨hl, ch', hch', p, hp, hk⟩ | ⟨hl, ch', hch', q, hq, hk⟩
                · exact ⟨Or.inl ⟨hl, ch', List.mem_cons_of_mem _ hch', p, hp, hk⟩, hd⟩
                · exact ⟨Or.inr ⟨hl, ch', List.mem_cons_of_mem _ hch', q, hq, hk⟩, hd⟩

theorem leadingBookmarks_keys (pm : List (String × Int)) :
    (leadingBookmarks pm).map (fun b => b.key) =
      (["cover", "preface", "outline"].filter (fun k => containsKey pm k)) := by
  unfold leadingBookmarks
  rw [List.map_append, List.map_append, keyedBookmark_map, keyedBookmark_map,
    keyedBookmark_map]
  cases h1 : containsKey pm "cover" <;> cases h2 : containsKey pm "preface" <;>
    cases h3 : containsKey pm "outline" <;> simp [List.filter_cons, h1, h2, h3]

theorem leadingBookmarks_mem (pm : List (String × Int)) (b : Bookmark)
    (hb : b ∈ leadingBookmarks pm) :
    b.level = 1 ∧
    (b.key = "cover" ∨ b.key = "preface" ∨ b.key = "outline") ∧
    dictGet pm b.key = some b.page := by
  unfold leadingBookmarks at hb
  rcases List.mem_append.mp hb with hb' | hb'
  · rcases List.mem_append.mp hb' with hb'' | hb''
    · obtain ⟨hl, hk, -, hd⟩ := keyedBookmark_mem pm _ _ b hb''
      exact ⟨hl, Or.inl hk, hd⟩
    · obtain ⟨hl, hk, -, hd⟩ := keyedBookmark_mem pm _ _ b hb''
      exact ⟨hl, Or.inr (Or.inl hk), hd⟩
  · obtain ⟨hl, hk, -, hd⟩ := keyedBookmark_mem pm _ _ b hb'
    exact ⟨hl, Or.inr (Or.inr hk), hd⟩

theorem countP_eq_one_of_nodup :
    ∀ (ts : List String), ts.Nodup → ∀ u ∈ ts,
      ts.countP (fun k => k = u) = 1 := by
  intro ts
  induction ts with
  | nil => intro _ u hu; simp at hu
  | cons t rest ih =>
      intro hnd u hu
      rw [List.countP_cons]
      rcases List.mem_cons.mp hu with rfl | hu'
      · have hz : rest.countP (fun k => k = u) = 0 := by
          rw [List.countP_eq_zero]
          intro k hk
          simp only [decide_eq_true_eq]
          intro hku
          exact (List.nodup_cons.mp hnd).1 (hku ▸ hk)
        simp [hz]
      · have ht : ¬(t = u) := by
          intro hteq
          exact (List.nodup_cons.mp hnd).1 (hteq ▸ hu')
        rw [ih (List.nodup_cons.mp hnd).2 u hu']
        simp [ht]

theorem countP_key_of_map (bms : List Bookmark) (ts : List String)
    (pm : List (String × Int))
    (hmap : bms.map (fun b => b.key) = ts.filter (fun k => containsKey pm k))
    (hnd : ts.Nodup) (u : String) (hu : u ∈ ts) :
    bms.countP (fun b => b.key = u) = if containsKey pm u then 1 else 0 := by
  have h1 : bms.countP (fun b => b.key = u) =
      (bms.map (fun b => b.key)).countP (fun k => k = u) := by
    rw [List.countP_map]
    rfl
  rw [h1, hmap, List.countP_filter]
  have h2 : ∀ k ∈ ts, ((decide (k = u) && containsKey pm k) = true ↔
      (decide (k = u) && containsKey pm u) = true) := by
    intro k _
    by_cases hku : k = u
    · rw [hku]
    · simp [hku]
  rw [List.countP_congr h2]
  cases hc : containsKey pm u with
  | true =>
      simp only [Bool.and_true]
      exact countP_eq_one_of_nodup ts hnd u hu
  | false =>
      simp

theorem bookmarkLines_flatten_length :
    ∀ bms : List Bookmark,
      (bms.map bookmarkLines).flatten.length = 4 * bms.length := by
  intro bms
  induction bms with
  | nil => rfl
  | cons b rest ih =>
      simp [bookmarkLines, List.flatten_cons, ih]
      ring

/-- C10 (amended): for a hierarchy whose chapters each have at least one
page, the bookmark builder succeeds without raising; the keys of the emitted
records are exactly the emission-order unit ids filtered by presence in the
page map — ids absent from the page map are silently skipped, and, provided
the derived unit ids are pairwise distinct, exactly one 4-line record is
written per unit id present in the page map; every record is a level-1
cover/preface/outline/chapter entry or a level-2 page entry carrying its
page-map value; and each record serializes to exactly 4 lines. -/
theorem create_pdf_metadata_spec (h : Hierarchy) (pm : List (String × Int))
    (ts : List String) (hts : emissionTargets h = some ts) :
    ∃ bms, create_pdf_metadata h pm = some bms ∧
      bms.map (fun b => b.key) = ts.filter (fun k => containsKey pm k) ∧
      (ts.Nodup → ∀ u ∈ ts,
        bms.countP (fun b => b.key = u) = if containsKey pm u then 1 else 0) ∧
      (∀ b ∈ bms,
        ((b.level = 1 ∧ (b.key = "cover" ∨ b.key = "preface" ∨ b.key = "outline" ∨
          (∃ ch ∈ h, ∃ p, ch.pages.head? = some p ∧
            b.key = "chapter-" ++ p.id.take 2))) ∨
         (b.level = 2 ∧ ∃ ch ∈ h, ∃ pg ∈ ch.pages, b.key = pg.id)) ∧
        dictGet pm b.key = some b.page) ∧
      (bms.map bookmarkLines).flatten.length = 4 * bms.length := by
  obtain ⟨l, hl, rfl⟩ : ∃ l, chaptersTargets h = some l ∧
      ts = "cover" :: "preface" :: "outline" :: l := by
    cases hct : chaptersTargets h with
    | none => rw [emissionTargets, hct] at hts; simp at hts
    | some l =>
        rw [emissionTargets, hct] at hts
        simp only [Option.map_some', Option.some.injEq] at hts
        exact ⟨l, rfl, hts.symm⟩
  obtain ⟨bms2, hb2, hk2⟩ := chaptersBookmarks_keys pm h l hl
  have hmap : (leadingBookmarks pm ++ bms2).map (fun b => b.key) =
      ("cover" :: "preface" :: "outline" :: l).filter
        (fun k => containsKey pm k) := by
    rw [List.map_append, leadingBookmarks_keys, hk2]
    rw [show ("cover" :: "preface" :: "outline" :: l) =
      ["cover", "preface", "outline"] ++ l from rfl, List.filter_append]
  refine ⟨leadingBookmarks pm ++ bms2, ?_, hmap, ?_, ?_, ?_⟩
  · simp [create_pdf_metadata, hb2]
  · intro hnd u hu
    exact countP_key_of_map _ _ pm hmap hnd u hu
  · intro b hb
    rcases List.mem_append.mp hb with hb' | hb'
    · obtain ⟨hl1, hk, hd⟩ := leadingBookmarks_mem pm b hb'
      rcases hk with hk | hk | hk
      · exact ⟨Or.inl ⟨hl1, Or.inl hk⟩, hd⟩
      · exact ⟨Or.inl ⟨hl1, Or.inr (Or.inl hk)⟩, hd⟩
      · exact ⟨Or.inl ⟨hl1, Or.inr (Or.inr (Or.inl hk))⟩, hd⟩
    · obtain ⟨hsrc, hd⟩ := chaptersBookmarks_mem pm h bms2 hb2 b hb'
      rcases hsrc with ⟨hl1, ch, hch, p, hp, hk⟩ | ⟨hl2, ch, hch, q, hq, hk⟩
      · exact ⟨Or.inl ⟨hl1, Or.inr (Or.inr (Or.inr ⟨ch, hch, p, hp, hk⟩))⟩, hd⟩
      · exact ⟨Or.inr ⟨hl2, ch, hch, q, hq, hk⟩, hd⟩
  · exact bookmarkLines_flatten_length _

/-- C10 witness at the worked example. -/
theorem create_pdf_metadata_spec_witness :
    ∃ bms, create_pdf_metadata exampleHierarchy examplePageMap = some bms ∧
      bms.map (fun b => b.key) =
        (["cover", "preface", "outline", "chapter-01", "01a", "01b",
          "chapter-02", "02a"].filter (fun k => containsKey examplePageMap k)) := by
  obtain ⟨bms, h1, h2, -, -, -⟩ := create_pdf_metadata_spec exampleHierarchy
    examplePageMap
    ["cover", "preface", "outline", "chapter-01", "01a", "01b",
     "chapter-02", "02a"] rfl
  exact ⟨bms, h1, h2⟩

end Noteworthy
